import Mathlib

/-!
Verification of the note editor core of this repository (the variant of the
editor component with `indent` support and recursive `autoCheckParents`).
Strings are modelled as `List Char`; `content.split('\n')` is `List.splitOn '\n'`
and `join('\n')` is `List.intercalate ['\n']`.
-/

/-- Character strings of the editor, modelled as lists of characters. -/
abbrev Str := List Char

/-- The `type` field of an `EditorLine`: `'text' | 'todo'`. -/
inductive LineType where
  | text
  | todo
deriving DecidableEq

/-- `interface EditorLine { type; text; checked; indent }`. -/
structure EditorLine where
  type : LineType
  text : Str
  checked : Bool
  indent : Nat
deriving DecidableEq

/-- The todo marker for a checked item, the string literal `"- [x] "`. -/
def todoMarkChecked : Str := "- [x] ".toList

/-- The todo marker for an unchecked item, the string literal `"- [ ] "`. -/
def todoMarkUnchecked : Str := "- [ ] ".toList

/-- `'  '.repeat(n)`: the two-space indent marker repeated `n` times. -/
def indentSpaces : Nat → Str
  | 0 => []
  | n + 1 => ' ' :: ' ' :: indentSpaces n

/-- The `while (stripped.startsWith('  '))` loop of `parseContent`: strips the
two-character indent marker repeatedly, returning the count and the remainder. -/
def stripIndent : Str → Nat × Str
  | [] => (0, [])
  | [c] => (0, [c])
  | c₁ :: c₂ :: rest =>
    if c₁ = ' ' ∧ c₂ = ' ' then
      ((stripIndent rest).1 + 1, (stripIndent rest).2)
    else (0, c₁ :: c₂ :: rest)

/-- Classification of one raw line inside `parseContent`'s `map` callback. -/
def parseLine (line : Str) : EditorLine :=
  let indent := (stripIndent line).1
  let stripped := (stripIndent line).2
  if todoMarkChecked.isPrefixOf stripped then
    ⟨.todo, stripped.drop 6, true, indent⟩
  else if todoMarkUnchecked.isPrefixOf stripped then
    ⟨.todo, stripped.drop 6, false, indent⟩
  else ⟨.text, line, false, 0⟩

/-- `parseContent(content)`: empty content gives a single empty text line,
otherwise split on line breaks and classify each raw line. -/
def parseContent (content : Str) : List EditorLine :=
  if content = [] then [⟨.text, [], false, 0⟩]
  else (content.splitOn '\n').map parseLine

/-- The `map` callback of `serializeLines`: renders one line back to text. -/
def renderLine (l : EditorLine) : Str :=
  match l.type with
  | .todo =>
    indentSpaces l.indent ++
      (if l.checked then todoMarkChecked else todoMarkUnchecked) ++ l.text
  | .text => l.text

/-- `serializeLines(lines)`: render each line and join with `'\n'`. -/
def serializeLines (lines : List EditorLine) : Str :=
  [('\n')].intercalate (lines.map renderLine)

/-- The parent-search loop of `autoCheckParents`
(`for (let i = currentIndex - 1; i >= 0; i--) ...`), examining index `j`
downwards: stops (`none`) at a non-todo line, answers `some j` at the first
todo whose indent is strictly below `curIndent`. -/
def findParentFrom (lines : List EditorLine) (curIndent : Nat) : Nat → Option Nat
  | 0 =>
    match lines[0]? with
    | none => none
    | some cand =>
      if cand.type = .todo then
        if cand.indent < curIndent then some 0 else none
      else none
  | j + 1 =>
    match lines[j + 1]? with
    | none => none
    | some cand =>
      if cand.type = .todo then
        if cand.indent < curIndent then some (j + 1)
        else findParentFrom lines curIndent j
      else none

/-- The parent search started from `currentIndex`: the loop runs over
`i = currentIndex - 1, …, 0`, so there is nothing to scan at index `0`. -/
def findParent (lines : List EditorLine) (curIndent : Nat) : Nat → Option Nat
  | 0 => none
  | j + 1 => findParentFrom lines curIndent j

/-- The child-scanning loop of `autoCheckParents`
(`for (let j = parentIndex + 1; ...)`), run over the suffix of the document
after the parent.  Returns the accumulated `(hasChildren, allChecked)` flags:
the scan breaks at a non-todo line or one with `indent < childIndent`, records
a child at exactly `childIndent`, and breaks early on an unchecked child. -/
def scanChildren (childIndent : Nat) : List EditorLine → Bool × Bool
  | [] => (false, true)
  | child :: rest =>
    if child.type ≠ .todo ∨ child.indent < childIndent then (false, true)
    else if child.indent = childIndent then
      if child.checked then (true, (scanChildren childIndent rest).2)
      else (true, false)
    else scanChildren childIndent rest

/-- The `while (currentIndex >= 0)` loop of `autoCheckParents`: find the
nearest parent of the line at `currentIndex`, recompute its checked state from
its direct children when it has any, and continue from the parent's index. -/
def autoCheckLoop (lines : List EditorLine) (currentIndex : Nat) : List EditorLine :=
  match lines[currentIndex]? with
  | none => lines
  | some currentLine =>
    if currentLine.type ≠ .todo ∨ currentLine.indent = 0 then lines
    else
      match hp : findParent lines currentLine.indent currentIndex with
      | none => lines
      | some parentIndex =>
        match lines[parentIndex]? with
        | none => lines
        | some parent =>
          if (scanChildren (parent.indent + 1) (lines.drop (parentIndex + 1))).1 then
            autoCheckLoop
              (lines.set parentIndex
                { parent with
                  checked := (scanChildren (parent.indent + 1) (lines.drop (parentIndex + 1))).2 })
              parentIndex
          else autoCheckLoop lines parentIndex
termination_by currentIndex
decreasing_by
  all_goals
    have aux : ∀ j p, findParentFrom lines currentLine.indent j = some p → p ≤ j := by
      intro j
      induction j with
      | zero =>
        intro p h
        simp only [findParentFrom] at h
        split at h
        · exact absurd h (by simp)
        · split at h
          · split at h
            · injection h with h'
              omega
            · exact absurd h (by simp)
          · exact absurd h (by simp)
      | succ j ih =>
        intro p h
        simp only [findParentFrom] at h
        split at h
        · exact absurd h (by simp)
        · split at h
          · split at h
            · injection h with h'
              omega
            · exact Nat.le_succ_of_le (ih p h)
          · exact absurd h (by simp)
    cases currentIndex with
    | zero => exact absurd hp (by simp [findParent])
    | succ j => exact Nat.lt_succ_of_le (aux j parentIndex hp)

/-- `autoCheckParents(lines, changedIndex)`: propagate the checked state of the
changed line upwards through its ancestors. -/
def autoCheckParents (lines : List EditorLine) (changedIndex : Nat) : List EditorLine :=
  autoCheckLoop lines changedIndex

/-- Error outcomes of an editing action.  `typeError` models the JavaScript
`TypeError` thrown by a property access on `undefined` (the code reads
`lines[index].…` without a bounds check); `invalidLineIndex` is the condition
named by the specification's error-handling contract — it is included so that
statements about it can be made, and the code never produces it. -/
inductive ErrKind where
  | typeError
  | invalidLineIndex
deriving DecidableEq

/-- `toggleCheck(index)`: flip `checked` at `index`, then run
`autoCheckParents` from `index`.  Out of range, the JavaScript code throws on
`newLines[index].checked`. -/
def toggleCheck (lines : List EditorLine) (index : Nat) :
    Except ErrKind (List EditorLine) :=
  match lines[index]? with
  | none => .error .typeError
  | some line =>
    .ok (autoCheckParents (lines.set index { line with checked := !line.checked }) index)

/-- `updateText(index, text)`: convert a text line whose new text starts with a
todo marker into a todo line at indent 0, otherwise replace the text verbatim. -/
def updateText (lines : List EditorLine) (index : Nat) (text : Str) :
    Except ErrKind (List EditorLine) :=
  match lines[index]? with
  | none => .error .typeError
  | some line =>
    if line.type = .text ∧ todoMarkChecked.isPrefixOf text then
      .ok (lines.set index ⟨.todo, text.drop 6, true, 0⟩)
    else if line.type = .text ∧ todoMarkUnchecked.isPrefixOf text then
      .ok (lines.set index ⟨.todo, text.drop 6, false, 0⟩)
    else .ok (lines.set index { line with text := text })

/-- The `Enter` branch of `handleKeyDown`: insert a new empty line after
`index`, a todo at the same indent when the current line is a todo. -/
def splitLine (lines : List EditorLine) (index : Nat) :
    Except ErrKind (List EditorLine) :=
  match lines[index]? with
  | none => .error .typeError
  | some line =>
    .ok (lines.insertIdx (index + 1)
      (if line.type = .todo then ⟨.todo, [], false, line.indent⟩
       else ⟨.text, [], false, 0⟩))

/-- The `Ctrl+Tab` branch of `handleKeyDown`: convert a text line to a todo at
indent 0, or increase a todo's indent clamped at 3. -/
def indentLine (lines : List EditorLine) (index : Nat) :
    Except ErrKind (List EditorLine) :=
  match lines[index]? with
  | none => .error .typeError
  | some line =>
    if line.type = .text then
      .ok (lines.set index ⟨.todo, line.text, false, 0⟩)
    else .ok (lines.set index { line with indent := min (line.indent + 1) 3 })

/-- The `Shift+Tab` branch of `handleKeyDown`: on a todo at indent 0 convert to
text, on a deeper todo decrement the indent; nothing happens on a text line. -/
def outdentLine (lines : List EditorLine) (index : Nat) :
    Except ErrKind (List EditorLine) :=
  match lines[index]? with
  | none => .error .typeError
  | some line =>
    if line.type = .todo then
      if line.indent = 0 then
        .ok (lines.set index ⟨.text, line.text, false, 0⟩)
      else .ok (lines.set index { line with indent := line.indent - 1 })
    else .ok lines

/-- The `Backspace` branch of `handleKeyDown`, which only fires when the line's
text is empty: an empty todo outdents (or becomes text at indent 0), an empty
text line is removed when more than one line exists, and the sole remaining
line is left alone. -/
def deleteBackward (lines : List EditorLine) (index : Nat) :
    Except ErrKind (List EditorLine) :=
  match lines[index]? with
  | none => .error .typeError
  | some line =>
    if line.text = [] then
      if line.type = .todo then
        if 0 < line.indent then
          .ok (lines.set index { line with indent := line.indent - 1 })
        else .ok (lines.set index ⟨.text, [], false, 0⟩)
      else if 1 < lines.length then .ok (lines.eraseIdx index)
      else .ok lines
    else .ok lines

/-- The editing actions of the engine, addressed by line index. -/
inductive EditAction where
  | split (i : Nat)
  | toggle (i : Nat)
  | editText (i : Nat) (t : Str)
  | indent (i : Nat)
  | outdent (i : Nat)
  | deleteBackward (i : Nat)

/-- Dispatch one action to its transition function. -/
def applyAction (lines : List EditorLine) : EditAction → Except ErrKind (List EditorLine)
  | .split i => splitLine lines i
  | .toggle i => toggleCheck lines i
  | .editText i t => updateText lines i t
  | .indent i => indentLine lines i
  | .outdent i => outdentLine lines i
  | .deleteBackward i => deleteBackward lines i

/-- Apply a sequence of actions, stopping at the first error. -/
def applyActions (lines : List EditorLine) : List EditAction → Except ErrKind (List EditorLine)
  | [] => .ok lines
  | a :: as =>
    match applyAction lines a with
    | .error e => .error e
    | .ok l' => applyActions l' as

/-- Data-model invariants of one Document line, as the specification's data
model states them: the stored text carries no embedded line break, and a text
line has `indent = 0` and `checked = false`. -/
def lineWF (l : EditorLine) : Prop :=
  ('\n') ∉ l.text ∧ (l.type = .text → l.indent = 0 ∧ l.checked = false)

instance (l : EditorLine) : Decidable (lineWF l) := by
  unfold lineWF; infer_instance

/-- A text line is free of todo-marker ambiguity: its stored text, after
stripping indent markers, does not begin with either todo marker (such a text
line would be re-read as a todo line). -/
def textNotTodoLike (l : EditorLine) : Prop :=
  l.type = .text →
    todoMarkChecked.isPrefixOf (stripIndent l.text).2 = false ∧
    todoMarkUnchecked.isPrefixOf (stripIndent l.text).2 = false

instance (l : EditorLine) : Decidable (textNotTodoLike l) := by
  unfold textNotTodoLike; infer_instance

/-- The indent bound of the data model: every todo line's indent is at most 3. -/
def IndentBound (lines : List EditorLine) : Prop :=
  ∀ l ∈ lines, l.type = .todo → l.indent ≤ 3

instance (lines : List EditorLine) : Decidable (IndentBound lines) := by
  unfold IndentBound; infer_instance

/-- The scan region below a candidate parent, as the specification describes
it: the longest run of subsequent todo lines with indent at least
`parentIndent + 1`; within it the direct children are exactly the lines at
indent `parentIndent + 1`. -/
def directChildrenOf (childIndent : Nat) (ls : List EditorLine) : List EditorLine :=
  (ls.takeWhile fun l => l.type == LineType.todo && decide (childIndent ≤ l.indent)).filter
    fun l => l.indent == childIndent

/-- The direct children of the parent at position `p` in the document. -/
def directChildren (lines : List EditorLine) (p : Nat) (parentIndent : Nat) :
    List EditorLine :=
  directChildrenOf (parentIndent + 1) (lines.drop (p + 1))

/-- `p` is the nearest parent of the line at `i`, as the specification
describes it: a preceding todo line with indent strictly below `curIndent`,
with every line strictly between `p` and `i` a todo line of indent at least
`curIndent` (so the backward walk crosses neither a text line nor a
lower-indent todo before reaching `p`). -/
def isNearestParent (lines : List EditorLine) (curIndent i p : Nat) : Prop :=
  p < i ∧
  (∃ lp, lines[p]? = some lp ∧ lp.type = .todo ∧ lp.indent < curIndent) ∧
  ∀ q, p < q → q < i →
    ∃ lq, lines[q]? = some lq ∧ lq.type = .todo ∧ curIndent ≤ lq.indent

-- Sanity examples (concrete behaviour of the parser/serializer).
example : parseContent ("- [x] a".toList) = [⟨.todo, ['a'], true, 0⟩] := by decide
example : parseContent ("  - [ ] b".toList) = [⟨.todo, ['b'], false, 1⟩] := by decide
example : parseContent ("  hi".toList) = [⟨.text, [' ', ' ', 'h', 'i'], false, 0⟩] := by
  decide
example : serializeLines [⟨.todo, ['a'], true, 2⟩] = "    - [x] a".toList := by decide
example : parseContent [] = [⟨.text, [], false, 0⟩] := rfl

/-! ## Lemmas about the indent marker and the line round trips -/

theorem todoMarkChecked_eq : todoMarkChecked = ['-', ' ', '[', 'x', ']', ' '] := rfl

theorem todoMarkUnchecked_eq : todoMarkUnchecked = ['-', ' ', '[', ' ', ']', ' '] := rfl

theorem stripIndent_eq : ∀ l : Str, indentSpaces (stripIndent l).1 ++ (stripIndent l).2 = l
  | [] => rfl
  | [c] => rfl
  | c₁ :: c₂ :: rest => by
    by_cases h : c₁ = ' ' ∧ c₂ = ' '
    · obtain ⟨rfl, rfl⟩ := h
      have hstep : stripIndent (' ' :: ' ' :: rest) =
          ((stripIndent rest).1 + 1, (stripIndent rest).2) := by simp [stripIndent]
      rw [hstep]
      show ' ' :: ' ' :: (indentSpaces (stripIndent rest).1 ++ (stripIndent rest).2) = _
      rw [stripIndent_eq rest]
    · have hstep : stripIndent (c₁ :: c₂ :: rest) = (0, c₁ :: c₂ :: rest) := by
        simp [stripIndent, if_neg h]
      rw [hstep]
      rfl

theorem stripIndent_dash (t : Str) : stripIndent ('-' :: t) = (0, '-' :: t) := by
  cases t with
  | nil => rfl
  | cons c cs => simp [stripIndent]

theorem stripIndent_indentSpaces :
    ∀ (n : Nat) (t : Str), stripIndent (indentSpaces n ++ '-' :: t) = (n, '-' :: t)
  | 0, t => by simpa [indentSpaces] using stripIndent_dash t
  | n + 1, t => by
    show stripIndent (' ' :: ' ' :: (indentSpaces n ++ '-' :: t)) = (n + 1, '-' :: t)
    have hstep : stripIndent (' ' :: ' ' :: (indentSpaces n ++ '-' :: t)) =
        ((stripIndent (indentSpaces n ++ '-' :: t)).1 + 1,
          (stripIndent (indentSpaces n ++ '-' :: t)).2) := by simp [stripIndent]
    rw [hstep, stripIndent_indentSpaces n t]

theorem renderLine_parseLine (l : Str) : renderLine (parseLine l) = l := by
  unfold parseLine
  by_cases h1 : todoMarkChecked.isPrefixOf (stripIndent l).2
  · rw [if_pos h1]
    obtain ⟨t, ht⟩ := List.isPrefixOf_iff_prefix.mp h1
    have hdrop : ((stripIndent l).2).drop 6 = t := by
      rw [← ht]; exact List.drop_left' (by decide)
    show indentSpaces (stripIndent l).1 ++ todoMarkChecked ++ ((stripIndent l).2).drop 6 = l
    rw [hdrop, List.append_assoc, ht, stripIndent_eq]
  · rw [if_neg h1]
    by_cases h2 : todoMarkUnchecked.isPrefixOf (stripIndent l).2
    · rw [if_pos h2]
      obtain ⟨t, ht⟩ := List.isPrefixOf_iff_prefix.mp h2
      have hdrop : ((stripIndent l).2).drop 6 = t := by
        rw [← ht]; exact List.drop_left' (by decide)
      show indentSpaces (stripIndent l).1 ++ todoMarkUnchecked ++ ((stripIndent l).2).drop 6 = l
      rw [hdrop, List.append_assoc, ht, stripIndent_eq]
    · rw [if_neg h2]
      rfl

theorem parseLine_renderLine (l : EditorLine) (hwf : lineWF l) (hun : textNotTodoLike l) :
    parseLine (renderLine l) = l := by
  obtain ⟨ty, tx, ck, ind⟩ := l
  cases ty with
  | todo =>
    cases ck with
    | true =>
      show parseLine (indentSpaces ind ++ todoMarkChecked ++ tx) = _
      have hsh : indentSpaces ind ++ todoMarkChecked ++ tx =
          indentSpaces ind ++ '-' :: (' ' :: '[' :: 'x' :: ']' :: ' ' :: tx) := by
        simp [todoMarkChecked_eq]
      unfold parseLine
      rw [hsh, stripIndent_indentSpaces]
      dsimp only
      have hpre : todoMarkChecked.isPrefixOf ('-' :: ' ' :: '[' :: 'x' :: ']' :: ' ' :: tx) = true := by
        rw [todoMarkChecked_eq]
        exact List.isPrefixOf_iff_prefix.mpr ⟨tx, rfl⟩
      rw [hpre]
      simp
    | false =>
      show parseLine (indentSpaces ind ++ todoMarkUnchecked ++ tx) = _
      have hsh : indentSpaces ind ++ todoMarkUnchecked ++ tx =
          indentSpaces ind ++ '-' :: (' ' :: '[' :: ' ' :: ']' :: ' ' :: tx) := by
        simp [todoMarkUnchecked_eq]
      unfold parseLine
      rw [hsh, stripIndent_indentSpaces]
      dsimp only
      have hnpre : todoMarkChecked.isPrefixOf ('-' :: ' ' :: '[' :: ' ' :: ']' :: ' ' :: tx) = false := by
        rw [todoMarkChecked_eq]
        simp [List.isPrefixOf]
      have hpre : todoMarkUnchecked.isPrefixOf ('-' :: ' ' :: '[' :: ' ' :: ']' :: ' ' :: tx) = true := by
        rw [todoMarkUnchecked_eq]
        exact List.isPrefixOf_iff_prefix.mpr ⟨tx, rfl⟩
      rw [hnpre, hpre]
      simp
  | text =>
    show parseLine tx = _
    obtain ⟨h1, h2⟩ := hun rfl
    obtain ⟨hind, hck⟩ := hwf.2 rfl
    unfold parseLine
    dsimp only
    rw [h1, h2]
    simp only [Bool.false_eq_true, if_false]
    exact EditorLine.mk.injEq .. ▸ by exact ⟨rfl, rfl, hck.symm, hind.symm⟩

theorem indentSpaces_all_space {c : Char} : ∀ {n : Nat}, c ∈ indentSpaces n → c = ' '
  | 0, h => by simp [indentSpaces] at h
  | n + 1, h => by
    simp only [indentSpaces, List.mem_cons] at h
    rcases h with rfl | rfl | h
    · rfl
    · rfl
    · exact indentSpaces_all_space h

theorem renderLine_no_newline (l : EditorLine) (h : ('\n') ∉ l.text) :
    ('\n') ∉ renderLine l := by
  obtain ⟨ty, tx, ck, ind⟩ := l
  cases ty with
  | todo =>
    intro hmem
    simp only [renderLine, List.mem_append] at hmem
    rcases hmem with (hs | hm) | ht
    · exact absurd (indentSpaces_all_space hs) (by decide)
    · cases ck
      · rw [if_neg (by decide)] at hm
        exact absurd hm (by decide)
      · rw [if_pos rfl] at hm
        exact absurd hm (by decide)
    · exact h ht
  | text => exact h

theorem serializeLines_singleton (d : EditorLine) : serializeLines [d] = renderLine d := by
  simp [serializeLines, List.intercalate]

theorem serializeLines_cons_cons (a b : EditorLine) (t : List EditorLine) :
    serializeLines (a :: b :: t) = renderLine a ++ '\n' :: serializeLines (b :: t) := by
  simp [serializeLines, List.intercalate]

/-- C7 (confirmed): serializing the parse of a string reproduces the string
exactly; this holds for every string, in particular for every string produced
by a prior `serializeLines` call. -/
theorem C7_roundtrip_text (s : Str) : serializeLines (parseContent s) = s := by
  by_cases h : s = []
  · subst h; rfl
  · rw [parseContent, if_neg h, serializeLines, List.map_map, Function.comp_def,
      List.map_id'' renderLine_parseLine]
    exact List.intercalate_splitOn s '\n'

/-- C1 counterexample: a Document consisting of one well-formed Text line with
indent 0 whose stored text begins with a todo marker does not survive the
serialize-then-parse round trip (it is re-read as a Todo line). -/
theorem C1_roundtrip_doc_cex :
    (∀ l ∈ [(⟨.text, "- [ ] a".toList, false, 0⟩ : EditorLine)], lineWF l ∧ l.indent ≤ 3) ∧
    parseContent (serializeLines [(⟨.text, "- [ ] a".toList, false, 0⟩ : EditorLine)]) ≠
      [(⟨.text, "- [ ] a".toList, false, 0⟩ : EditorLine)] := by
  constructor
  · decide
  · decide

/-- C1 (corrected): for every well-formed Document whose indents are in
`[0,3]` **and whose Text lines are free of todo-marker ambiguity**, parsing
the serialization yields the Document exactly.  (The claim's inclusion of
Text lines whose stored text begins with a todo prefix is refuted by
`C1_roundtrip_doc_cex`; Text lines beginning with mere indent markers are
fine and are covered here.) -/
theorem C1_roundtrip_doc_amended (D : List EditorLine) (hne : D ≠ [])
    (hind : ∀ l ∈ D, l.indent ≤ 3) (hwf : ∀ l ∈ D, lineWF l)
    (hun : ∀ l ∈ D, textNotTodoLike l) :
    parseContent (serializeLines D) = D := by
  rw [parseContent]
  by_cases h0 : serializeLines D = []
  · rw [if_pos h0]
    cases D with
    | nil => exact absurd rfl hne
    | cons d ds =>
      cases ds with
      | nil =>
        rw [serializeLines_singleton] at h0
        obtain ⟨ty, tx, ck, ind⟩ := d
        cases ty with
        | todo =>
          exfalso
          simp only [renderLine] at h0
          rw [List.append_eq_nil, List.append_eq_nil] at h0
          have hmark := h0.1.2
          cases ck <;> simp [todoMarkChecked_eq, todoMarkUnchecked_eq] at hmark
        | text =>
          simp only [renderLine] at h0
          obtain ⟨hi0, hc0⟩ := (hwf ⟨.text, tx, ck, ind⟩ (by simp)).2 rfl
          have h1 : ind = 0 := hi0
          have h2 : ck = false := hc0
          have h3 : tx = [] := h0
          subst h1; subst h2; subst h3
          rfl
      | cons d₂ ds' =>
        exfalso
        rw [serializeLines_cons_cons, List.append_eq_nil] at h0
        exact List.cons_ne_nil _ _ h0.2
  · rw [if_neg h0]
    have hsp : (serializeLines D).splitOn '\n' = D.map renderLine := by
      rw [serializeLines]
      refine List.splitOn_intercalate (D.map renderLine) '\n' ?_ ?_
      · intro l hl
        obtain ⟨a, ha, rfl⟩ := List.mem_map.mp hl
        exact renderLine_no_newline a (hwf a ha).1
      · simpa using hne
    rw [hsp, List.map_map, Function.comp_def,
      List.map_congr_left fun a ha => parseLine_renderLine a (hwf a ha) (hun a ha)]
    exact List.map_id' D

/-! ## Lemmas about the propagation machinery -/

theorem findParentFrom_spec (lines : List EditorLine) (ind : Nat) :
    ∀ j p, findParentFrom lines ind j = some p →
      p ≤ j ∧ ∃ cand, lines[p]? = some cand ∧ cand.type = .todo ∧ cand.indent < ind := by
  intro j
  induction j with
  | zero =>
    intro p h
    unfold findParentFrom at h
    split at h
    · exact absurd h (by simp)
    · rename_i cand heq
      split at h
      · rename_i htodo
        split at h
        · rename_i hlt
          injection h with h'
          subst h'
          exact ⟨Nat.le_refl 0, cand, heq, htodo, hlt⟩
        · exact absurd h (by simp)
      · exact absurd h (by simp)
  | succ j ih =>
    intro p h
    unfold findParentFrom at h
    split at h
    · exact absurd h (by simp)
    · rename_i cand heq
      split at h
      · rename_i htodo
        split at h
        · rename_i hlt
          injection h with h'
          subst h'
          exact ⟨Nat.le_refl _, cand, heq, htodo, hlt⟩
        · obtain ⟨h1, h2⟩ := ih p h
          exact ⟨Nat.le_succ_of_le h1, h2⟩
      · exact absurd h (by simp)

theorem findParent_spec {lines : List EditorLine} {ind ci p : Nat}
    (h : findParent lines ind ci = some p) :
    p < ci ∧ ∃ cand, lines[p]? = some cand ∧ cand.type = .todo ∧ cand.indent < ind := by
  cases ci with
  | zero => exact absurd h (by simp [findParent])
  | succ j =>
    obtain ⟨h1, h2⟩ := findParentFrom_spec lines ind j p h
    exact ⟨Nat.lt_succ_of_le h1, h2⟩

theorem findParent_lt {lines : List EditorLine} {ind ci p : Nat}
    (h : findParent lines ind ci = some p) : p < ci :=
  (findParent_spec h).1

theorem findParent_of_nearest {lines : List EditorLine} {ind i p : Nat}
    (hm : isNearestParent lines ind i p) : findParent lines ind i = some p := by
  obtain ⟨hpi, ⟨lp, hlp, hlpt, hlpi⟩, hbetween⟩ := hm
  cases i with
  | zero => omega
  | succ j =>
    show findParentFrom lines ind j = some p
    have aux : ∀ m, p ≤ m → m ≤ j → findParentFrom lines ind m = some p := by
      intro m
      induction m with
      | zero =>
        intro h1 _
        have hp0 : p = 0 := by omega
        subst hp0
        unfold findParentFrom
        simp only [hlp]
        rw [if_pos hlpt, if_pos hlpi]
      | succ m ihm =>
        intro h1 h2
        by_cases hpm : p = m + 1
        · subst hpm
          unfold findParentFrom
          simp only [hlp]
          rw [if_pos hlpt, if_pos hlpi]
        · obtain ⟨lq, hlq, hlqt, hlqi⟩ := hbetween (m + 1) (by omega) (by omega)
          unfold findParentFrom
          simp only [hlq]
          rw [if_pos hlqt, if_neg (by omega)]
          exact ihm (by omega) (by omega)
    exact aux j (by omega) (Nat.le_refl j)

theorem scanChildren_eq (ci : Nat) :
    ∀ ls : List EditorLine,
      scanChildren ci ls =
        (!(directChildrenOf ci ls).isEmpty, (directChildrenOf ci ls).all (·.checked)) := by
  intro ls
  induction ls with
  | nil => rfl
  | cons l rest ih =>
    by_cases hreg : l.type = .todo ∧ ci ≤ l.indent
    · have hnot : ¬(l.type ≠ .todo ∨ l.indent < ci) := by
        rintro (h1 | h2)
        · exact h1 hreg.1
        · omega
      have hpred : (l.type == LineType.todo && decide (ci ≤ l.indent)) = true := by
        simp [hreg.1, hreg.2]
      by_cases hlv : l.indent = ci
      · have hkids : directChildrenOf ci (l :: rest) = l :: directChildrenOf ci rest := by
          unfold directChildrenOf
          rw [List.takeWhile_cons, if_pos hpred, List.filter_cons,
            if_pos (by simp [hlv])]
        cases hck : l.checked
        · show (if l.type ≠ .todo ∨ l.indent < ci then ((false : Bool), (true : Bool))
            else if l.indent = ci then if l.checked then (true, (scanChildren ci rest).2)
              else (true, false)
            else scanChildren ci rest) = _
          rw [if_neg hnot, if_pos hlv, hck, hkids]
          simp [hck]
        · show (if l.type ≠ .todo ∨ l.indent < ci then ((false : Bool), (true : Bool))
            else if l.indent = ci then if l.checked then (true, (scanChildren ci rest).2)
              else (true, false)
            else scanChildren ci rest) = _
          rw [if_neg hnot, if_pos hlv, hck, hkids, ih]
          simp [hck]
      · have hkids : directChildrenOf ci (l :: rest) = directChildrenOf ci rest := by
          unfold directChildrenOf
          rw [List.takeWhile_cons, if_pos hpred, List.filter_cons,
            if_neg (by simp [hlv])]
        show (if l.type ≠ .todo ∨ l.indent < ci then ((false : Bool), (true : Bool))
          else if l.indent = ci then if l.checked then (true, (scanChildren ci rest).2)
            else (true, false)
          else scanChildren ci rest) = _
        rw [if_neg hnot, if_neg hlv, hkids]
        exact ih
    · have hor : l.type ≠ .todo ∨ l.indent < ci := by
        by_cases h1 : l.type = .todo
        · right; by_contra h2; exact hreg ⟨h1, by omega⟩
        · left; exact h1
      have hpred : (l.type == LineType.todo && decide (ci ≤ l.indent)) = false := by
        rcases hor with h1 | h2
        · simp [h1]
        · simp [Nat.not_le_of_lt h2]
      have hkids : directChildrenOf ci (l :: rest) = [] := by
        unfold directChildrenOf
        rw [List.takeWhile_cons, if_neg (by simp [hpred])]
        rfl
      show (if l.type ≠ .todo ∨ l.indent < ci then ((false : Bool), (true : Bool))
        else if l.indent = ci then if l.checked then (true, (scanChildren ci rest).2)
          else (true, false)
        else scanChildren ci rest) = _
      rw [if_pos hor, hkids]
      rfl

theorem autoCheckLoop_spec :
    ∀ ci (lines : List EditorLine) (j : Nat),
      (autoCheckLoop lines ci)[j]? = lines[j]? ∨
      (j < ci ∧ ∃ l b cur, lines[ci]? = some cur ∧ lines[j]? = some l ∧
        l.type = .todo ∧ l.indent < cur.indent ∧
        (autoCheckLoop lines ci)[j]? = some { l with checked := b }) := by
  intro ci
  induction ci using Nat.strong_induction_on with
  | _ ci ih =>
    intro lines j
    rw [autoCheckLoop.eq_def]
    split
    · left; rfl
    · rename_i currentLine hcur
      split
      · left; rfl
      · split
        · left; rfl
        · rename_i hcond parentIndex hp
          split
          · left; rfl
          · rename_i parent hpar
            obtain ⟨hplt, cand, hcand, hcandt, hcandi⟩ := findParent_spec hp
            rw [hpar] at hcand
            injection hcand with hcand
            subst hcand
            obtain ⟨hplen, -⟩ := List.getElem?_eq_some_iff.mp hpar
            split
            · rename_i hsc
              rcases ih parentIndex hplt
                  (lines.set parentIndex
                    { parent with
                      checked :=
                        (scanChildren (parent.indent + 1) (lines.drop (parentIndex + 1))).2 })
                  j with hL | ⟨hjp, l, b, curP, hcurP, hLj, hlt, hlti, hres⟩
              · by_cases hj : j = parentIndex
                · subst hj
                  right
                  refine ⟨hplt, parent,
                    (scanChildren (parent.indent + 1) (lines.drop (j + 1))).2,
                    currentLine, hcur, hpar, hcandt, hcandi, ?_⟩
                  rw [hL]
                  exact List.getElem?_set_self hplen
                · left
                  rw [hL]
                  exact List.getElem?_set_ne (fun h => hj h.symm)
              · right
                have hjne : parentIndex ≠ j := by omega
                rw [List.getElem?_set_ne hjne] at hLj
                rw [List.getElem?_set_self hplen] at hcurP
                injection hcurP with hcurP
                refine ⟨by omega, l, b, currentLine, hcur, hLj, hlt, ?_, hres⟩
                have : curP.indent = parent.indent := by rw [← hcurP]
                omega
            · rcases ih parentIndex hplt lines j with hL |
                ⟨hjp, l, b, curP, hcurP, hLj, hlt, hlti, hres⟩
              · left; exact hL
              · right
                rw [hpar] at hcurP
                injection hcurP with hcurP
                subst hcurP
                exact ⟨by omega, l, b, currentLine, hcur, hLj, hlt, by omega, hres⟩

theorem autoCheckLoop_frame {lines : List EditorLine} {ci j : Nat} (h : ci ≤ j) :
    (autoCheckLoop lines ci)[j]? = lines[j]? := by
  rcases autoCheckLoop_spec ci lines j with hL | ⟨hjp, -⟩
  · exact hL
  · omega

theorem autoCheckLoop_length :
    ∀ ci (lines : List EditorLine), (autoCheckLoop lines ci).length = lines.length := by
  intro ci
  induction ci using Nat.strong_induction_on with
  | _ ci ih =>
    intro lines
    rw [autoCheckLoop.eq_def]
    split
    · rfl
    · split
      · rfl
      · split
        · rfl
        · rename_i hcond parentIndex hp
          split
          · rfl
          · split
            · rw [ih parentIndex (findParent_lt hp), List.length_set]
            · exact ih parentIndex (findParent_lt hp) lines

/-- The loop exits at a line that is missing, is not a todo, or sits at
indent 0. -/
theorem autoCheckLoop_stop {lines : List EditorLine} {i : Nat}
    (h : lines[i]? = none ∨ ∃ l, lines[i]? = some l ∧ (l.type ≠ .todo ∨ l.indent = 0)) :
    autoCheckLoop lines i = lines := by
  rw [autoCheckLoop.eq_def]
  rcases h with hnone | ⟨l, hsome, hcond⟩
  · rw [hnone]
  · rw [hsome]
    simp only [hcond, if_true]

/-- The loop exits when no parent is found. -/
theorem autoCheckLoop_stop_noParent {lines : List EditorLine} {i : Nat}
    {cur : EditorLine} (hcur : lines[i]? = some cur)
    (hfp : findParent lines cur.indent i = none) :
    autoCheckLoop lines i = lines := by
  rw [autoCheckLoop.eq_def]
  split
  · rfl
  · rename_i curL hcurL
    rw [hcur] at hcurL
    injection hcurL with hcurL
    subst hcurL
    split
    · rfl
    · split
      · rfl
      · rename_i hcond pI hpI
        rw [hfp] at hpI
        exact absurd hpI (by simp)

/-- One iteration of the loop, when the current line is a todo at positive
indent with a parent: the parent's checked state is recomputed from the
scan of its children when it has any, and the loop continues at the parent. -/
theorem autoCheckLoop_step {lines : List EditorLine} {ci : Nat} {cur : EditorLine}
    (hcur : lines[ci]? = some cur) (ht : cur.type = .todo) (hi : cur.indent ≠ 0)
    {p : Nat} (hfp : findParent lines cur.indent ci = some p) {parent : EditorLine}
    (hpar : lines[p]? = some parent) :
    autoCheckLoop lines ci =
      if (scanChildren (parent.indent + 1) (lines.drop (p + 1))).1 then
        autoCheckLoop
          (lines.set p
            { parent with
              checked := (scanChildren (parent.indent + 1) (lines.drop (p + 1))).2 })
          p
      else autoCheckLoop lines p := by
  rw [autoCheckLoop.eq_def]
  split
  · rename_i hnone
    rw [hcur] at hnone
    exact absurd hnone (by simp)
  · rename_i curL hcurL
    rw [hcur] at hcurL
    injection hcurL with hcurL
    subst hcurL
    split
    · rename_i hcond
      rcases hcond with h | h
      · exact absurd ht h
      · exact absurd h hi
    · split
      · rename_i hcond hpnone
        rw [hfp] at hpnone
        exact absurd hpnone (by simp)
      · rename_i hcond pI hpI
        rw [hfp] at hpI
        injection hpI with hpI
        subst hpI
        split
        · rename_i hparnone
          rw [hpar] at hparnone
          exact absurd hparnone (by simp)
        · rename_i parL hparL
          rw [hpar] at hparL
          injection hparL with hparL
          subst hparL
          rfl

/-- Propagation from a line that is missing, is not a todo, or sits at indent
0 leaves the document unchanged. -/
theorem autoCheckParents_stop {lines : List EditorLine} {i : Nat}
    (h : lines[i]? = none ∨ ∃ l, lines[i]? = some l ∧ (l.type ≠ .todo ∨ l.indent = 0)) :
    autoCheckParents lines i = lines :=
  autoCheckLoop_stop h

/-- C8 (confirmed): propagation from a changed index never touches the changed
line or any line at or after it, and every line it does change lies strictly
before the changed index, is a todo with indent strictly below the changed
line's indent, and changes in its checked field only. -/
theorem C8_propagation_frame (lines : List EditorLine) (i : Nat) :
    (∀ j, i ≤ j → (autoCheckParents lines i)[j]? = lines[j]?) ∧
    (∀ j, (autoCheckParents lines i)[j]? ≠ lines[j]? →
      j < i ∧ ∃ l b cur, lines[i]? = some cur ∧ lines[j]? = some l ∧
        l.type = .todo ∧ l.indent < cur.indent ∧
        (autoCheckParents lines i)[j]? = some { l with checked := b }) := by
  constructor
  · intro j hij
    exact autoCheckLoop_frame hij
  · intro j hne
    rcases autoCheckLoop_spec i lines j with hL | ⟨hji, hrest⟩
    · exact absurd hL hne
    · exact ⟨hji, hrest⟩

/-- C3 (confirmed): after propagation from a changed todo line at positive
indent, the nearest parent's checked state equals the conjunction of its
direct children's checked states when it has at least one direct child, and is
untouched when it has none. -/
theorem C3_parent_recompute (lines : List EditorLine) (i p : Nat)
    (cur parent : EditorLine)
    (hcur : lines[i]? = some cur) (ht : cur.type = .todo) (hi : cur.indent ≠ 0)
    (hnear : isNearestParent lines cur.indent i p)
    (hpar : lines[p]? = some parent) :
    (directChildren lines p parent.indent ≠ [] →
      (autoCheckParents lines i)[p]? =
        some { parent with
          checked := (directChildren lines p parent.indent).all (·.checked) }) ∧
    (directChildren lines p parent.indent = [] →
      (autoCheckParents lines i)[p]? = some parent) := by
  have hfp : findParent lines cur.indent i = some p := findParent_of_nearest hnear
  obtain ⟨hplen, -⟩ := List.getElem?_eq_some_iff.mp hpar
  rw [autoCheckParents, autoCheckLoop_step hcur ht hi hfp hpar,
    scanChildren_eq (parent.indent + 1) (lines.drop (p + 1))]
  constructor
  · intro hk
    rw [if_pos (by simp [directChildren, directChildrenOf] at hk ⊢; exact hk)]
    rw [autoCheckLoop_frame (Nat.le_refl p), List.getElem?_set_self hplen]
    rfl
  · intro hk
    rw [if_neg (by simp [directChildren, directChildrenOf] at hk ⊢; exact hk)]
    rw [autoCheckLoop_frame (Nat.le_refl p)]
    exact hpar

/-- C3 witness: in the two-line document `[todo "g" indent 0, checked todo
"c" indent 1]`, propagation from the child recomputes the parent's checked
state to true; the parent here has exactly one direct child. -/
theorem C3_parent_recompute_witness :
    (directChildren
        [(⟨.todo, ['g'], false, 0⟩ : EditorLine), ⟨.todo, ['c'], true, 1⟩] 0 0 ≠ [] →
      (autoCheckParents
          [(⟨.todo, ['g'], false, 0⟩ : EditorLine), ⟨.todo, ['c'], true, 1⟩] 1)[0]? =
        some { (⟨.todo, ['g'], false, 0⟩ : EditorLine) with
          checked :=
            (directChildren
              [(⟨.todo, ['g'], false, 0⟩ : EditorLine), ⟨.todo, ['c'], true, 1⟩] 0 0).all
              (·.checked) }) ∧
    (directChildren
        [(⟨.todo, ['g'], false, 0⟩ : EditorLine), ⟨.todo, ['c'], true, 1⟩] 0 0 = [] →
      (autoCheckParents
          [(⟨.todo, ['g'], false, 0⟩ : EditorLine), ⟨.todo, ['c'], true, 1⟩] 1)[0]? =
        some (⟨.todo, ['g'], false, 0⟩ : EditorLine)) :=
  C3_parent_recompute
    [(⟨.todo, ['g'], false, 0⟩ : EditorLine), ⟨.todo, ['c'], true, 1⟩] 1 0
    ⟨.todo, ['c'], true, 1⟩ ⟨.todo, ['g'], false, 0⟩ rfl rfl (by decide)
    ⟨by decide, ⟨⟨.todo, ['g'], false, 0⟩, rfl, rfl, by decide⟩,
      fun q hq1 hq2 => absurd hq1 (by omega)⟩
    rfl

/-- C2 (confirmed): in the three-level nesting `[grandparent at indent k,
parent at indent k+1, child at indent k+2]`, a single Toggle on the unchecked
child checks the child and cascades upward, checking both the parent and the
grandparent, for every base indent `k` and all texts and prior parent states. -/
theorem C2_cascade_threeLevels (k : Nat) (t₁ t₂ t₃ : Str) (b₁ b₂ : Bool) :
    toggleCheck
      [⟨.todo, t₁, b₁, k⟩, ⟨.todo, t₂, b₂, k + 1⟩, ⟨.todo, t₃, false, k + 2⟩] 2 =
    Except.ok
      [⟨.todo, t₁, true, k⟩, ⟨.todo, t₂, true, k + 1⟩, ⟨.todo, t₃, true, k + 2⟩] := by
  have hsc1 : scanChildren (k + 1 + 1) [(⟨.todo, t₃, true, k + 2⟩ : EditorLine)] =
      (true, true) := by
    unfold scanChildren
    dsimp only
    rw [if_neg ?hr1, if_pos (by omega), if_pos rfl]
    case hr1 =>
      rintro (h | h)
      exact h rfl
      omega
    rfl
  have hsc2a : scanChildren (k + 1) [(⟨.todo, t₃, true, k + 2⟩ : EditorLine)] =
      (false, true) := by
    unfold scanChildren
    dsimp only
    rw [if_neg ?hr2, if_neg (by omega)]
    case hr2 =>
      rintro (h | h)
      exact h rfl
      omega
    rfl
  have hsc2 : scanChildren (k + 1)
      [(⟨.todo, t₂, true, k + 1⟩ : EditorLine), ⟨.todo, t₃, true, k + 2⟩] =
      (true, true) := by
    unfold scanChildren
    dsimp only
    rw [if_neg ?hr3, if_pos rfl, if_pos rfl, hsc2a]
    case hr3 =>
      rintro (h | h)
      exact h rfl
      omega
  have hfp1 : findParent
      [(⟨.todo, t₁, b₁, k⟩ : EditorLine), ⟨.todo, t₂, b₂, k + 1⟩, ⟨.todo, t₃, true, k + 2⟩]
      (k + 2) 2 = some 1 := by
    show findParentFrom
      [(⟨.todo, t₁, b₁, k⟩ : EditorLine), ⟨.todo, t₂, b₂, k + 1⟩, ⟨.todo, t₃, true, k + 2⟩]
      (k + 2) 1 = some 1
    unfold findParentFrom
    simp only [List.getElem?_cons_succ, List.getElem?_cons_zero]
    rw [if_pos trivial, if_pos (by omega)]
  have hfp2 : findParent
      [(⟨.todo, t₁, b₁, k⟩ : EditorLine), ⟨.todo, t₂, true, k + 1⟩, ⟨.todo, t₃, true, k + 2⟩]
      (k + 1) 1 = some 0 := by
    show findParentFrom
      [(⟨.todo, t₁, b₁, k⟩ : EditorLine), ⟨.todo, t₂, true, k + 1⟩, ⟨.todo, t₃, true, k + 2⟩]
      (k + 1) 0 = some 0
    unfold findParentFrom
    simp only [List.getElem?_cons_zero]
    rw [if_pos trivial, if_pos (by omega)]
  show Except.ok (autoCheckParents
    [(⟨.todo, t₁, b₁, k⟩ : EditorLine), ⟨.todo, t₂, b₂, k + 1⟩, ⟨.todo, t₃, true, k + 2⟩] 2) =
    Except.ok
      [(⟨.todo, t₁, true, k⟩ : EditorLine), ⟨.todo, t₂, true, k + 1⟩, ⟨.todo, t₃, true, k + 2⟩]
  rw [autoCheckParents,
    autoCheckLoop_step
      (show ([(⟨.todo, t₁, b₁, k⟩ : EditorLine), ⟨.todo, t₂, b₂, k + 1⟩,
          ⟨.todo, t₃, true, k + 2⟩] : List EditorLine)[2]? =
        some ⟨.todo, t₃, true, k + 2⟩ from rfl)
      rfl (show k + 2 ≠ 0 by omega) hfp1
      (show ([(⟨.todo, t₁, b₁, k⟩ : EditorLine), ⟨.todo, t₂, b₂, k + 1⟩,
          ⟨.todo, t₃, true, k + 2⟩] : List EditorLine)[1]? =
        some ⟨.todo, t₂, b₂, k + 1⟩ from rfl)]
  dsimp only
  simp only [List.drop_succ_cons, List.drop_zero]
  rw [hsc1, if_pos rfl]
  show Except.ok (autoCheckLoop
    [(⟨.todo, t₁, b₁, k⟩ : EditorLine), ⟨.todo, t₂, true, k + 1⟩, ⟨.todo, t₃, true, k + 2⟩] 1) =
    Except.ok
      [(⟨.todo, t₁, true, k⟩ : EditorLine), ⟨.todo, t₂, true, k + 1⟩, ⟨.todo, t₃, true, k + 2⟩]
  rw [autoCheckLoop_step
      (show ([(⟨.todo, t₁, b₁, k⟩ : EditorLine), ⟨.todo, t₂, true, k + 1⟩,
          ⟨.todo, t₃, true, k + 2⟩] : List EditorLine)[1]? =
        some ⟨.todo, t₂, true, k + 1⟩ from rfl)
      rfl (show k + 1 ≠ 0 by omega) hfp2
      (show ([(⟨.todo, t₁, b₁, k⟩ : EditorLine), ⟨.todo, t₂, true, k + 1⟩,
          ⟨.todo, t₃, true, k + 2⟩] : List EditorLine)[0]? =
        some ⟨.todo, t₁, b₁, k⟩ from rfl)]
  dsimp only
  simp only [List.drop_succ_cons, List.drop_zero]
  rw [hsc2, if_pos rfl]
  show Except.ok (autoCheckLoop
    [(⟨.todo, t₁, true, k⟩ : EditorLine), ⟨.todo, t₂, true, k + 1⟩, ⟨.todo, t₃, true, k + 2⟩] 0) =
    Except.ok
      [(⟨.todo, t₁, true, k⟩ : EditorLine), ⟨.todo, t₂, true, k + 1⟩, ⟨.todo, t₃, true, k + 2⟩]
  cases k with
  | zero =>
    rw [autoCheckLoop_stop (Or.inr ⟨⟨.todo, t₁, true, 0⟩, rfl, Or.inr rfl⟩)]
  | succ j =>
    rw [autoCheckLoop_stop_noParent
      (show ([(⟨.todo, t₁, true, j + 1⟩ : EditorLine), ⟨.todo, t₂, true, j + 1 + 1⟩,
          ⟨.todo, t₃, true, j + 1 + 2⟩] : List EditorLine)[0]? =
        some ⟨.todo, t₁, true, j + 1⟩ from rfl)
      rfl]

/-- C1 witness: the amended round trip holds on a concrete three-line Document
with nested todos and a plain text line. -/
theorem C1_roundtrip_doc_witness :
    parseContent (serializeLines
      [(⟨.todo, ['a'], false, 0⟩ : EditorLine), ⟨.todo, ['b'], true, 1⟩,
        ⟨.text, "note".toList, false, 0⟩]) =
      [(⟨.todo, ['a'], false, 0⟩ : EditorLine), ⟨.todo, ['b'], true, 1⟩,
        ⟨.text, "note".toList, false, 0⟩] :=
  C1_roundtrip_doc_amended _ (by decide) (by decide) (by decide) (by decide)

/-! ## Claims about the editing actions -/

/-- C4 counterexample: `toggleCheck` on a Text line is not a no-op — it flips
the Text line's checked field to true (the function does not guard on the line
kind; in the component the checkbox only renders on todo lines). -/
theorem C4_toggle_text_cex :
    toggleCheck [(⟨.text, ['a'], false, 0⟩ : EditorLine)] 0 =
      Except.ok [(⟨.text, ['a'], true, 0⟩ : EditorLine)] ∧
    toggleCheck [(⟨.text, ['a'], false, 0⟩ : EditorLine)] 0 ≠
      Except.ok [(⟨.text, ['a'], false, 0⟩ : EditorLine)] := by
  have hval : toggleCheck [(⟨.text, ['a'], false, 0⟩ : EditorLine)] 0 =
      Except.ok [(⟨.text, ['a'], true, 0⟩ : EditorLine)] := by
    have h0 : toggleCheck [(⟨.text, ['a'], false, 0⟩ : EditorLine)] 0 =
        Except.ok (autoCheckParents [(⟨.text, ['a'], true, 0⟩ : EditorLine)] 0) := rfl
    rw [h0, autoCheckParents_stop
      (Or.inr ⟨⟨.text, ['a'], true, 0⟩, rfl, Or.inl (by decide)⟩)]
  constructor
  · exact hval
  · intro h
    rw [hval] at h
    exact absurd (Except.ok.inj h) (by decide)

/-- C4 (corrected): `toggleCheck` flips the target line's checked field
unconditionally; on a Text line the result is exactly the document with that
one flipped field (propagation stops immediately), while on a Todo line the
flip is followed by propagation from `i`. -/
theorem C4_toggle_amended (lines : List EditorLine) (i : Nat) (l : EditorLine)
    (hl : lines[i]? = some l) :
    (l.type = .text →
      toggleCheck lines i = .ok (lines.set i { l with checked := !l.checked })) ∧
    (l.type = .todo →
      toggleCheck lines i =
        .ok (autoCheckParents (lines.set i { l with checked := !l.checked }) i)) := by
  have hstep : toggleCheck lines i =
      .ok (autoCheckParents (lines.set i { l with checked := !l.checked }) i) := by
    rw [toggleCheck.eq_def]
    split
    · rename_i hnone
      rw [hl] at hnone
      exact absurd hnone (by simp)
    · rename_i l' hl'
      rw [hl] at hl'
      injection hl' with hl'
      subst hl'
      rfl
  have hlen : i < lines.length := (List.getElem?_eq_some_iff.mp hl).1
  constructor
  · intro ht
    rw [hstep, autoCheckParents_stop]
    right
    refine ⟨{ l with checked := !l.checked }, List.getElem?_set_self hlen, Or.inl ?_⟩
    show l.type ≠ .todo
    rw [ht]
    decide
  · intro _
    exact hstep

/-- C4 witness: the amended statement evaluated on a one-line Text document
and on a one-line Todo document. -/
theorem C4_toggle_amended_witness :
    ((⟨.text, ['a'], false, 0⟩ : EditorLine).type = .text →
      toggleCheck [(⟨.text, ['a'], false, 0⟩ : EditorLine)] 0 =
        .ok ([(⟨.text, ['a'], false, 0⟩ : EditorLine)].set 0
          { (⟨.text, ['a'], false, 0⟩ : EditorLine) with
            checked := !(⟨.text, ['a'], false, 0⟩ : EditorLine).checked })) ∧
    ((⟨.text, ['a'], false, 0⟩ : EditorLine).type = .todo →
      toggleCheck [(⟨.text, ['a'], false, 0⟩ : EditorLine)] 0 =
        .ok (autoCheckParents
          ([(⟨.text, ['a'], false, 0⟩ : EditorLine)].set 0
            { (⟨.text, ['a'], false, 0⟩ : EditorLine) with
              checked := !(⟨.text, ['a'], false, 0⟩ : EditorLine).checked }) 0)) :=
  C4_toggle_amended [(⟨.text, ['a'], false, 0⟩ : EditorLine)] 0
    ⟨.text, ['a'], false, 0⟩ rfl

/-- C9 counterexample: an out-of-range Toggle fails with the modelled
JavaScript `TypeError`, not with an `invalidLineIndex` condition — no such
condition exists anywhere in the code. -/
theorem C9_invalid_index_cex :
    toggleCheck [(⟨.text, [], false, 0⟩ : EditorLine)] 3 =
      Except.error ErrKind.typeError ∧
    toggleCheck [(⟨.text, [], false, 0⟩ : EditorLine)] 3 ≠
      Except.error ErrKind.invalidLineIndex := by
  constructor
  · rfl
  · intro h
    rw [show toggleCheck [(⟨.text, [], false, 0⟩ : EditorLine)] 3 =
      Except.error ErrKind.typeError from rfl] at h
    exact ErrKind.noConfusion (Except.error.inj h)

/-- C9 (corrected): every EditEngine action invoked with an out-of-range line
index fails fast — with the JavaScript `TypeError` raised by reading a
property of `undefined`, not with an `"InvalidLineIndex"` condition — and no
modified Document is produced (the error is returned before any commit). -/
theorem C9_invalid_index_amended (lines : List EditorLine) (i : Nat) (t : Str)
    (h : lines.length ≤ i) :
    toggleCheck lines i = .error .typeError ∧
    updateText lines i t = .error .typeError ∧
    splitLine lines i = .error .typeError ∧
    indentLine lines i = .error .typeError ∧
    outdentLine lines i = .error .typeError ∧
    deleteBackward lines i = .error .typeError := by
  have hnone : lines[i]? = none := List.getElem?_eq_none h
  refine ⟨?_, ?_, ?_, ?_, ?_, ?_⟩
  · rw [toggleCheck.eq_def, hnone]
  · rw [updateText.eq_def, hnone]
  · rw [splitLine.eq_def, hnone]
  · rw [indentLine.eq_def, hnone]
  · rw [outdentLine.eq_def, hnone]
  · rw [deleteBackward.eq_def, hnone]

/-- C9 witness: the amended statement evaluated at the empty document and
index 0. -/
theorem C9_invalid_index_witness :
    toggleCheck [] 0 = .error .typeError ∧
    updateText [] 0 [] = .error .typeError ∧
    splitLine [] 0 = .error .typeError ∧
    indentLine [] 0 = .error .typeError ∧
    outdentLine [] 0 = .error .typeError ∧
    deleteBackward [] 0 = .error .typeError :=
  C9_invalid_index_amended [] 0 [] (by decide)

theorem IndentBound.set {lines : List EditorLine} (hb : IndentBound lines)
    {i : Nat} {l' : EditorLine} (h : l'.type = .todo → l'.indent ≤ 3) :
    IndentBound (lines.set i l') := by
  intro x hx
  rcases List.mem_or_eq_of_mem_set hx with hx | rfl
  · exact hb x hx
  · exact h

theorem autoCheckParents_indentBound {lines : List EditorLine} {ci : Nat}
    (hb : IndentBound lines) : IndentBound (autoCheckParents lines ci) := by
  rw [autoCheckParents]
  intro l hl
  obtain ⟨j, hj⟩ := List.mem_iff_getElem?.mp hl
  rcases autoCheckLoop_spec ci lines j with hL | ⟨-, l0, b, cur, -, hl0, hl0t, -, hres⟩
  · rw [hj] at hL
    exact hb l (List.getElem?_mem hL.symm)
  · rw [hj] at hres
    injection hres with hres
    subst hres
    intro _
    exact hb l0 (List.getElem?_mem hl0) hl0t

/-- C5 counterexample: a document freshly parsed from malformed input with raw
indentation of depth 4, after a single valid `Toggle` action, still contains a
todo line of indent 4 — the action does not re-clamp pre-existing deep
indents. -/
theorem C5_indent_bound_cex :
    applyAction (parseContent ("        - [ ] a\n- [ ] b".toList))
      (EditAction.toggle 1) =
      Except.ok [(⟨.todo, ['a'], false, 4⟩ : EditorLine), ⟨.todo, ['b'], true, 0⟩] ∧
    ¬ IndentBound [(⟨.todo, ['a'], false, 4⟩ : EditorLine), ⟨.todo, ['b'], true, 0⟩] := by
  constructor
  · have h1 : applyAction (parseContent ("        - [ ] a\n- [ ] b".toList))
        (EditAction.toggle 1) =
        Except.ok (autoCheckParents
          [(⟨.todo, ['a'], false, 4⟩ : EditorLine), ⟨.todo, ['b'], true, 0⟩] 1) := rfl
    rw [h1, autoCheckParents_stop
      (Or.inr ⟨⟨.todo, ['b'], true, 0⟩, rfl, Or.inr rfl⟩)]
  · decide

/-- C5 (corrected): every EditEngine action **preserves** the indent bound —
if every todo line's indent is at most 3 before the action, so is every todo
line's indent after it — but a single action does not restore the bound on a
document parsed from malformed input, as `C5_indent_bound_cex` shows. -/
theorem C5_indent_bound_amended (lines : List EditorLine) (a : EditAction)
    (lines' : List EditorLine) (hb : IndentBound lines)
    (h : applyAction lines a = .ok lines') : IndentBound lines' := by
  cases a with
  | toggle i =>
    simp only [applyAction] at h
    rw [toggleCheck.eq_def] at h
    split at h
    · exact absurd h (by simp)
    · rename_i l hl
      injection h with h
      subst h
      exact autoCheckParents_indentBound
        (IndentBound.set hb fun ht => hb l (List.getElem?_mem hl) ht)
  | editText i t =>
    simp only [applyAction] at h
    rw [updateText.eq_def] at h
    split at h
    · exact absurd h (by simp)
    · rename_i l hl
      split at h
      · injection h with h
        subst h
        exact IndentBound.set hb fun _ => Nat.zero_le 3
      · split at h
        · injection h with h
          subst h
          exact IndentBound.set hb fun _ => Nat.zero_le 3
        · injection h with h
          subst h
          exact IndentBound.set hb fun ht => hb l (List.getElem?_mem hl) ht
  | split i =>
    simp only [applyAction] at h
    rw [splitLine.eq_def] at h
    split at h
    · exact absurd h (by simp)
    · rename_i l hl
      injection h with h
      subst h
      intro x hx
      have hlen : i < lines.length := (List.getElem?_eq_some_iff.mp hl).1
      rcases (List.mem_insertIdx (by omega)).mp hx with rfl | hx
      · by_cases hty : l.type = .todo
        · rw [if_pos hty]
          intro _
          exact hb l (List.getElem?_mem hl) hty
        · rw [if_neg hty]
          intro _
          decide
      · exact hb x hx
  | indent i =>
    simp only [applyAction] at h
    rw [indentLine.eq_def] at h
    split at h
    · exact absurd h (by simp)
    · rename_i l hl
      split at h
      · injection h with h
        subst h
        exact IndentBound.set hb fun _ => Nat.zero_le 3
      · injection h with h
        subst h
        exact IndentBound.set hb fun _ => Nat.min_le_right _ 3
  | outdent i =>
    simp only [applyAction] at h
    rw [outdentLine.eq_def] at h
    split at h
    · exact absurd h (by simp)
    · rename_i l hl
      split at h
      · rename_i hty
        split at h
        · injection h with h
          subst h
          exact IndentBound.set hb fun ht => LineType.noConfusion ht
        · injection h with h
          subst h
          refine IndentBound.set hb fun _ => ?_
          have := hb l (List.getElem?_mem hl) hty
          show l.indent - 1 ≤ 3
          omega
      · injection h with h
        subst h
        exact hb
  | deleteBackward i =>
    simp only [applyAction] at h
    rw [deleteBackward.eq_def] at h
    split at h
    · exact absurd h (by simp)
    · rename_i l hl
      split at h
      · split at h
        · rename_i hty
          split at h
          · injection h with h
            subst h
            refine IndentBound.set hb fun _ => ?_
            have := hb l (List.getElem?_mem hl) hty
            show l.indent - 1 ≤ 3
            omega
          · injection h with h
            subst h
            exact IndentBound.set hb fun ht => LineType.noConfusion ht
        · split at h
          · injection h with h
            subst h
            intro x hx
            exact hb x (List.mem_of_mem_eraseIdx hx)
          · injection h with h
            subst h
            exact hb
      · injection h with h
        subst h
        exact hb

/-- C5 witness: the preserved bound evaluated on a concrete in-bound document
and an Outdent action. -/
theorem C5_indent_bound_witness :
    IndentBound [(⟨.todo, ['a'], true, 2⟩ : EditorLine)] ∧
    IndentBound [(⟨.todo, ['a'], true, 1⟩ : EditorLine)] :=
  ⟨by decide,
    C5_indent_bound_amended [(⟨.todo, ['a'], true, 2⟩ : EditorLine)]
      (EditAction.outdent 0) [(⟨.todo, ['a'], true, 1⟩ : EditorLine)]
      (by decide) rfl⟩

theorem parseContent_ne_nil (s : Str) : parseContent s ≠ [] := by
  rw [parseContent]
  split
  · simp
  · simp only [ne_eq, List.map_eq_nil_iff]
    exact List.splitOnP_ne_nil _ s

theorem applyAction_ok_ne_nil {lines : List EditorLine} {a : EditAction}
    {lines' : List EditorLine} (h : applyAction lines a = .ok lines') :
    lines' ≠ [] := by
  cases a with
  | toggle i =>
    simp only [applyAction] at h
    rw [toggleCheck.eq_def] at h
    split at h
    · exact absurd h (by simp)
    · rename_i l hl
      injection h with h
      subst h
      refine List.ne_nil_of_length_pos ?_
      rw [autoCheckParents, autoCheckLoop_length, List.length_set]
      have := (List.getElem?_eq_some_iff.mp hl).1
      omega
  | editText i t =>
    simp only [applyAction] at h
    rw [updateText.eq_def] at h
    split at h
    · exact absurd h (by simp)
    · rename_i l hl
      have hlen := (List.getElem?_eq_some_iff.mp hl).1
      split at h
      · injection h with h
        subst h
        exact List.ne_nil_of_length_pos (by rw [List.length_set]; omega)
      · split at h
        · injection h with h
          subst h
          exact List.ne_nil_of_length_pos (by rw [List.length_set]; omega)
        · injection h with h
          subst h
          exact List.ne_nil_of_length_pos (by rw [List.length_set]; omega)
  | split i =>
    simp only [applyAction] at h
    rw [splitLine.eq_def] at h
    split at h
    · exact absurd h (by simp)
    · rename_i l hl
      have hlen := (List.getElem?_eq_some_iff.mp hl).1
      injection h with h
      subst h
      refine List.ne_nil_of_length_pos ?_
      rw [List.length_insertIdx _ _ (by omega)]
      omega
  | indent i =>
    simp only [applyAction] at h
    rw [indentLine.eq_def] at h
    split at h
    · exact absurd h (by simp)
    · rename_i l hl
      have hlen := (List.getElem?_eq_some_iff.mp hl).1
      split at h
      · injection h with h
        subst h
        exact List.ne_nil_of_length_pos (by rw [List.length_set]; omega)
      · injection h with h
        subst h
        exact List.ne_nil_of_length_pos (by rw [List.length_set]; omega)
  | outdent i =>
    simp only [applyAction] at h
    rw [outdentLine.eq_def] at h
    split at h
    · exact absurd h (by simp)
    · rename_i l hl
      have hlen := (List.getElem?_eq_some_iff.mp hl).1
      split at h
      · split at h
        · injection h with h
          subst h
          exact List.ne_nil_of_length_pos (by rw [List.length_set]; omega)
        · injection h with h
          subst h
          exact List.ne_nil_of_length_pos (by rw [List.length_set]; omega)
      · injection h with h
        subst h
        exact List.ne_nil_of_length_pos (by omega)
  | deleteBackward i =>
    simp only [applyAction] at h
    rw [deleteBackward.eq_def] at h
    split at h
    · exact absurd h (by simp)
    · rename_i l hl
      have hlen := (List.getElem?_eq_some_iff.mp hl).1
      split at h
      · split at h
        · split at h
          · injection h with h
            subst h
            exact List.ne_nil_of_length_pos (by rw [List.length_set]; omega)
          · injection h with h
            subst h
            exact List.ne_nil_of_length_pos (by rw [List.length_set]; omega)
        · split at h
          · rename_i hgt
            injection h with h
            subst h
            refine List.ne_nil_of_length_pos ?_
            rw [List.length_eraseIdx_of_lt hlen]
            omega
          · injection h with h
            subst h
            exact List.ne_nil_of_length_pos (by omega)
      · injection h with h
        subst h
        exact List.ne_nil_of_length_pos (by omega)

theorem applyActions_ok_ne_nil :
    ∀ (acts : List EditAction) (lines final : List EditorLine), lines ≠ [] →
      applyActions lines acts = .ok final → final ≠ []
  | [], lines, final, hne, h => by
    simp only [applyActions] at h
    injection h with h
    subst h
    exact hne
  | a :: as, lines, final, hne, h => by
    simp only [applyActions] at h
    split at h
    · exact absurd h (by simp)
    · rename_i l1 hl1
      exact applyActions_ok_ne_nil as l1 final (applyAction_ok_ne_nil hl1) h

/-- C6 (confirmed): starting from any parsed Document, any sequence of
EditEngine actions that succeeds (valid indices throughout) yields a Document
of at least one line; in particular `deleteBackward` on a sole remaining empty
Text line is a no-op. -/
theorem C6_never_empty (s : Str) (acts : List EditAction) (final : List EditorLine)
    (h : applyActions (parseContent s) acts = .ok final) :
    1 ≤ final.length ∧
    ∀ l : EditorLine, l.type = .text → l.text = [] →
      deleteBackward [l] 0 = .ok [l] := by
  constructor
  · have hne := applyActions_ok_ne_nil acts (parseContent s) final (parseContent_ne_nil s) h
    cases final with
    | nil => exact absurd rfl hne
    | cons x xs => simp
  · intro l ht htext
    rw [deleteBackward.eq_def]
    split
    · rename_i hnone
      exact absurd hnone (by simp)
    · rename_i l' hl'
      simp only [List.getElem?_cons_zero] at hl'
      injection hl' with hl'
      subst hl'
      rw [if_pos htext, if_neg (by rw [ht]; decide),
        if_neg (show ¬(1 < ([l] : List EditorLine).length) by simp)]

/-- C6 witness: the empty content parses to one line and the empty action
sequence keeps it; the sole empty Text line is untouched by
`deleteBackward`. -/
theorem C6_never_empty_witness :
    1 ≤ ([(⟨.text, [], false, 0⟩ : EditorLine)] : List EditorLine).length ∧
    ∀ l : EditorLine, l.type = .text → l.text = [] →
      deleteBackward [l] 0 = .ok [l] :=
  C6_never_empty [] [] [⟨.text, [], false, 0⟩] rfl

theorem set_frame (lines : List EditorLine) (i : Nat) (l' : EditorLine) :
    (lines.set i l').length = lines.length ∧
    ∀ j, j ≠ i → (lines.set i l')[j]? = lines[j]? :=
  ⟨List.length_set lines i l', fun _ hj => List.getElem?_set_ne fun hh => hj hh.symm⟩

/-- C10 (confirmed): the single-line actions EditText (with or without
coercion), Indent, Outdent, and DeleteBackward on an empty Todo line succeed
and modify at most the line at the target index: the line count is unchanged
and every other position is untouched; moreover DeleteBackward on an empty
Todo of positive indent decrements its indent and keeps its checked flag and
kind. -/
theorem C10_single_line_frame (lines : List EditorLine) (i : Nat) (l : EditorLine)
    (hl : lines[i]? = some l) :
    (∀ t, ∃ d', updateText lines i t = .ok d' ∧ d'.length = lines.length ∧
      ∀ j, j ≠ i → d'[j]? = lines[j]?) ∧
    (∃ d', indentLine lines i = .ok d' ∧ d'.length = lines.length ∧
      ∀ j, j ≠ i → d'[j]? = lines[j]?) ∧
    (∃ d', outdentLine lines i = .ok d' ∧ d'.length = lines.length ∧
      ∀ j, j ≠ i → d'[j]? = lines[j]?) ∧
    (l.type = .todo → l.text = [] → ∃ d', deleteBackward lines i = .ok d' ∧
      d'.length = lines.length ∧ ∀ j, j ≠ i → d'[j]? = lines[j]?) ∧
    (l.type = .todo → l.text = [] → 0 < l.indent →
      deleteBackward lines i = .ok (lines.set i { l with indent := l.indent - 1 })) := by
  have hdel : l.type = .todo → l.text = [] →
      deleteBackward lines i =
        .ok (if 0 < l.indent then lines.set i { l with indent := l.indent - 1 }
             else lines.set i ⟨.text, [], false, 0⟩) := by
    intro ht htext
    rw [deleteBackward.eq_def]
    split
    · rename_i hnone
      rw [hl] at hnone
      exact absurd hnone (by simp)
    · rename_i l' hl'
      rw [hl] at hl'
      injection hl' with hl'
      subst hl'
      rw [if_pos htext, if_pos ht]
      split
      · rfl
      · rfl
  refine ⟨?_, ?_, ?_, ?_, ?_⟩
  · intro t
    rw [updateText.eq_def]
    split
    · rename_i hnone
      rw [hl] at hnone
      exact absurd hnone (by simp)
    · rename_i l' hl'
      split
      · exact ⟨_, rfl, (set_frame ..).1, (set_frame ..).2⟩
      · split
        · exact ⟨_, rfl, (set_frame ..).1, (set_frame ..).2⟩
        · exact ⟨_, rfl, (set_frame ..).1, (set_frame ..).2⟩
  · rw [indentLine.eq_def]
    split
    · rename_i hnone
      rw [hl] at hnone
      exact absurd hnone (by simp)
    · rename_i l' hl'
      split
      · exact ⟨_, rfl, (set_frame ..).1, (set_frame ..).2⟩
      · exact ⟨_, rfl, (set_frame ..).1, (set_frame ..).2⟩
  · rw [outdentLine.eq_def]
    split
    · rename_i hnone
      rw [hl] at hnone
      exact absurd hnone (by simp)
    · rename_i l' hl'
      split
      · split
        · exact ⟨_, rfl, (set_frame ..).1, (set_frame ..).2⟩
        · exact ⟨_, rfl, (set_frame ..).1, (set_frame ..).2⟩
      · exact ⟨lines, rfl, rfl, fun _ _ => rfl⟩
  · intro ht htext
    rw [hdel ht htext]
    split
    · exact ⟨_, rfl, (set_frame ..).1, (set_frame ..).2⟩
    · exact ⟨_, rfl, (set_frame ..).1, (set_frame ..).2⟩
  · intro ht htext hind
    rw [hdel ht htext, if_pos hind]

/-- C10 witness: the frame statement evaluated on a two-line document at the
empty checked Todo of indent 2. -/
theorem C10_single_line_frame_witness :
    (∀ t, ∃ d', updateText
        [(⟨.todo, [], true, 2⟩ : EditorLine), ⟨.text, ['z'], false, 0⟩] 0 t = .ok d' ∧
      d'.length = 2 ∧
      ∀ j, j ≠ 0 →
        d'[j]? = [(⟨.todo, [], true, 2⟩ : EditorLine), ⟨.text, ['z'], false, 0⟩][j]?) ∧
    (∃ d', indentLine
        [(⟨.todo, [], true, 2⟩ : EditorLine), ⟨.text, ['z'], false, 0⟩] 0 = .ok d' ∧
      d'.length = 2 ∧
      ∀ j, j ≠ 0 →
        d'[j]? = [(⟨.todo, [], true, 2⟩ : EditorLine), ⟨.text, ['z'], false, 0⟩][j]?) ∧
    (∃ d', outdentLine
        [(⟨.todo, [], true, 2⟩ : EditorLine), ⟨.text, ['z'], false, 0⟩] 0 = .ok d' ∧
      d'.length = 2 ∧
      ∀ j, j ≠ 0 →
        d'[j]? = [(⟨.todo, [], true, 2⟩ : EditorLine), ⟨.text, ['z'], false, 0⟩][j]?) ∧
    ((⟨.todo, [], true, 2⟩ : EditorLine).type = .todo →
      (⟨.todo, [], true, 2⟩ : EditorLine).text = [] →
      ∃ d', deleteBackward
          [(⟨.todo, [], true, 2⟩ : EditorLine), ⟨.text, ['z'], false, 0⟩] 0 = .ok d' ∧
        d'.length = 2 ∧
        ∀ j, j ≠ 0 →
          d'[j]? = [(⟨.todo, [], true, 2⟩ : EditorLine), ⟨.text, ['z'], false, 0⟩][j]?) ∧
    ((⟨.todo, [], true, 2⟩ : EditorLine).type = .todo →
      (⟨.todo, [], true, 2⟩ : EditorLine).text = [] →
      0 < (⟨.todo, [], true, 2⟩ : EditorLine).indent →
      deleteBackward
        [(⟨.todo, [], true, 2⟩ : EditorLine), ⟨.text, ['z'], false, 0⟩] 0 =
        .ok ([(⟨.todo, [], true, 2⟩ : EditorLine), ⟨.text, ['z'], false, 0⟩].set 0
          { (⟨.todo, [], true, 2⟩ : EditorLine) with
            indent := (⟨.todo, [], true, 2⟩ : EditorLine).indent - 1 })) :=
  C10_single_line_frame
    [(⟨.todo, [], true, 2⟩ : EditorLine), ⟨.text, ['z'], false, 0⟩] 0
    ⟨.todo, [], true, 2⟩ rfl
